import Mathlib

/-!
Verification of the UniSim training orchestrator (`trainer/abs_trainer.py`)
against its natural-language specification.

The Python code is shallowly embedded: floating-point values are modelled by
an inductive type `F` distinguishing NaN, the two infinities and finite
(rational-valued) numbers; Python exceptions by explicit `Except`; stateful
loops by explicit state passing over lists of per-batch outcomes.
-/

namespace UniSim

/-- Model of a Python/torch floating-point scalar: NaN, +inf, -inf, or a
finite value (modelled as a rational). -/
inductive F where
  | nan : F
  | pinf : F
  | ninf : F
  | fin : ℚ → F
  deriving DecidableEq, Repr

/-- The greatest finite value representable by the tensor dtype (float32 in
the default setup); `torch.nan_to_num` substitutes it for `+inf`. Its exact
magnitude is irrelevant to the development beyond being positive. -/
def FLT_MAX : ℚ := 340282346638528859811704183484516925440

/-- Predicate `isFinite x` holds for finite values only (mirrors `torch.isfinite`). -/
def F.isFinite : F → Bool
  | .fin _ => true
  | _ => false

/-- Predicate `isNan x` mirrors `torch.isnan`. -/
def F.isNan : F → Bool
  | .nan => true
  | _ => false

/-- Model of `torch.nan_to_num` with default arguments: NaN becomes 0, `+inf` becomes
the greatest finite representable value, `-inf` the least; finite values are
unchanged. -/
def nan_to_num : F → F
  | .nan => .fin 0
  | .pinf => .fin FLT_MAX
  | .ninf => .fin (-FLT_MAX)
  | .fin q => .fin q

/-- Model of `replace_nan_gradients(model)` (abs_trainer.py lines 15-18): for every
parameter whose `.grad` is not `None`, replace the gradient tensor by its
`torch.nan_to_num` image in place. A parameter's gradient is modelled as
`Option (List F)` (`none` = `.grad is None`); the model's parameter list as a
list of such gradients. The function is total: it never raises. -/
def replace_nan_gradients (params : List (Option (List F))) :
    List (Option (List F)) :=
  params.map (fun g => g.map (fun t => t.map nan_to_num))

/-- Python `<` on floats: NaN is incomparable (every comparison with it is
`False`); infinities compare as expected. -/
def flt : F → F → Bool
  | .fin a, .fin b => a < b
  | .fin _, .pinf => true
  | .ninf, .fin _ => true
  | .ninf, .pinf => true
  | _, _ => false

/-- The comparator built at abs_trainer.py lines 205-208: `a < b` when
`metric_min_better`, `a > b` otherwise. -/
def better (minBetter : Bool) (a b : F) : Bool :=
  if minBetter then flt a b else flt b a

/-- The insertion-position scan of `_maintain_topk_checkpoint`
(abs_trainer.py lines 209-213): the first index whose stored metric the new
metric is strictly better than, defaulting to the length of the list. -/
def insertPos (minBetter : Bool) (m : F) : List (F × String) → Nat
  | [] => 0
  | (x, _) :: rest =>
      if better minBetter m x then 0 else insertPos minBetter m rest + 1

/-- Python `list.insert(pos, a)` for `pos ≤ len` (the only case arising). -/
def listInsert (pos : Nat) (a : α) : List α → List α
  | [] => [a]
  | x :: xs =>
      match pos with
      | 0 => a :: x :: xs
      | p + 1 => x :: listInsert p a xs

/-- The eviction loop of `_maintain_topk_checkpoint` (abs_trainer.py lines
218-221): while the map is longer than `topk`, delete the blob of the last
(worst) record and pop it. Returns the surviving map and the deleted blob
paths in deletion order. The loop removes one element per iteration, so a
fuel of the initial length suffices and keeps the definition structural. -/
def evictLoopFuel (topk : Nat) : Nat → List (F × String) →
    List (F × String) × List String
  | 0, l => (l, [])
  | fuel + 1, l =>
      if topk < l.length then
        match l.getLast? with
        | some (_, p) =>
            let r := evictLoopFuel topk fuel l.dropLast
            (r.1, p :: r.2)
        | none => (l, [])
      else (l, [])

/-- The eviction loop with fuel instantiated to the list length. -/
def evictLoop (topk : Nat) (l : List (F × String)) :
    List (F × String) × List String :=
  evictLoopFuel topk l.length l

/-- The manifest line written for one record (abs_trainer.py line 227):
`f'{metric}: {path}'` with the metric rendered by its `Repr`. -/
def manifestLine (e : F × String) : String :=
  reprStr e.1 ++ ": " ++ e.2

/-- The manifest rewrite of `_maintain_topk_checkpoint` (abs_trainer.py
lines 224-227): the file is reopened with mode `w` (truncating) and one line
is written per currently retained record, in order. -/
def writeManifest (l : List (F × String)) : List String :=
  l.map manifestLine

/-- Model of `Trainer._maintain_topk_checkpoint(valid_metric, ckpt_path)`
(abs_trainer.py lines 203-227): insert the new record at the scanned
position, then, only when `save_topk > 0`, evict from the end until the
length is at most `save_topk`. Returns the new map and the deleted blob
paths. -/
def maintain_topk (minBetter : Bool) (topk : Int) (m : F) (path : String)
    (map : List (F × String)) : List (F × String) × List String :=
  let map' := listInsert (insertPos minBetter m map) (m, path) map
  if 0 < topk then evictLoop topk.toNat map' else (map', [])

/-- Sequential driver threading `_maintain_topk_checkpoint` over a list of
(metric, path) insertions, collecting all deleted blob paths. -/
def runInserts (minBetter : Bool) (topk : Int) :
    List (F × String) → List (F × String) →
    List (F × String) × List String
  | [], map => (map, [])
  | (m, p) :: rest, map =>
      let r := maintain_topk minBetter topk m p map
      let r2 := runInserts minBetter topk rest r.1
      (r2.1, r.2 ++ r2.2)

/-- Model of `Trainer._metric_better(new)` (abs_trainer.py lines 194-201): `True`
when no previous metric exists, otherwise a strict comparison in the
configured direction. -/
def metric_better (minBetter : Bool) (last : Option F) (new : F) : Bool :=
  match last with
  | none => true
  | some old => if minBetter then flt new old else flt old new

/-- The mutable trainer state read and written by the judgment tail of
`_valid_epoch` (abs_trainer.py lines 173-184). -/
structure VState where
  patience : Int
  lastValidMetric : Option F
  topkMap : List (F × String)
  deriving DecidableEq, Repr

/-- Result of one validation judgment: the updated state, the checkpoint
path persisted this epoch (if any), and the blob paths deleted by top-k
eviction. -/
structure VOut where
  state : VState
  savedCkpt : Option String
  deleted : List String
  deriving DecidableEq, Repr

/-- The main-process judgment tail of `Trainer._valid_epoch` (abs_trainer.py
lines 173-184): if `_metric_better(valid_metric)` then reset patience to
the configured value, persist a checkpoint and insert it into the top-k
map; otherwise decrement patience. In both branches `last_valid_metric` is
then overwritten with the new aggregate. -/
def valid_judge (minBetter : Bool) (topk : Int) (cfgPatience : Int)
    (st : VState) (valid_metric : F) (savePath : String) : VOut :=
  if metric_better minBetter st.lastValidMetric valid_metric then
    let r := maintain_topk minBetter topk valid_metric savePath st.topkMap
    ⟨⟨cfgPatience, some valid_metric, r.1⟩, some savePath, r.2⟩
  else
    ⟨⟨st.patience - 1, some valid_metric, st.topkMap⟩, none, []⟩

/-- The metric-collection loop of `_valid_epoch` (abs_trainer.py lines
154-170, single-process path): per-batch metrics that are NaN are skipped
with a warning; the rest are appended to `metric_arr`. -/
def collect_metrics (steps : List F) : List F :=
  steps.filter (fun m => !m.isNan)

/-- Model of `np.nanmean` over the collected metric array (abs_trainer.py line 174),
restricted to the finite-or-NaN values the collection loop produces: the
mean of the finite entries, or NaN when none exist. -/
def nanmean (l : List F) : F :=
  let vals := l.filterMap (fun x => match x with | F.fin q => some q | _ => none)
  if vals.length = 0 then F.nan else F.fin (vals.sum / vals.length)

/-- Scheduler-stepping counters tracked across the batch loop: the current
`global_step` and how many times the warmup scheduler and the main scheduler
have been stepped. -/
structure SchedState where
  global_step : Nat
  warmupSteps : Nat
  mainSteps : Nat
  deriving DecidableEq, Repr

/-- The post-success tail of one iteration of the `_train_epoch` batch loop
(abs_trainer.py lines 132-136): increment `global_step`; then, if the new
`global_step` is still below `warmup`, step the warmup scheduler; otherwise
if the main scheduler's frequency is `'batch'`, step it. -/
def apply_batch (warmup : Nat) (freq : Option String) (s : SchedState) :
    SchedState :=
  let g := s.global_step + 1
  if g < warmup then ⟨g, s.warmupSteps + 1, s.mainSteps⟩
  else if freq = some "batch" then ⟨g, s.warmupSteps, s.mainSteps + 1⟩
  else ⟨g, s.warmupSteps, s.mainSteps⟩

/-- Iteration of `apply_batch` over `n` successfully applied batches. -/
def applyBatches (warmup : Nat) (freq : Option String) :
    Nat → SchedState → SchedState
  | 0, s => s
  | n + 1, s => applyBatches warmup freq n (apply_batch warmup freq s)

/-- The end-of-epoch scheduler step of `_train_epoch` (abs_trainer.py lines
137-138): step the main scheduler once iff `global_step >= warmup` and its
frequency is `'epoch'`. -/
def epoch_end_step (warmup : Nat) (freq : Option String) (s : SchedState) :
    SchedState :=
  if warmup ≤ s.global_step ∧ freq = some "epoch" then
    { s with mainSteps := s.mainSteps + 1 }
  else s

/-- The per-validation scheduler step of `_valid_epoch` (abs_trainer.py
lines 186-187): step the main scheduler (fed the aggregate metric) once iff
`global_step >= warmup` and its frequency is `'val_epoch'`. -/
def val_end_step (warmup : Nat) (freq : Option String) (s : SchedState) :
    SchedState :=
  if warmup ≤ s.global_step ∧ freq = some "val_epoch" then
    { s with mainSteps := s.mainSteps + 1 }
  else s

/-- A Python exception as classified by the batch loop's handler: whether it
is a `RuntimeError`, and its message string. -/
structure Exc where
  isRuntime : Bool
  msg : String
  deriving DecidableEq, Repr

/-- List-based substring test modelling Python's
`'out of memory' in str(e)`. -/
def hasSubstr (need : List Char) : List Char → Bool
  | [] => need.isEmpty
  | c :: rest => need.isPrefixOf (c :: rest) || hasSubstr need rest

/-- The handler's classification (abs_trainer.py lines 120-126): an
exception is recoverable exactly when it is a `RuntimeError` whose message
contains `'out of memory'`. -/
def isOOM (e : Exc) : Bool :=
  e.isRuntime && hasSubstr "out of memory".toList e.msg.toList

/-- What one batch's `train_step`/`backward` computation did: completed with
a loss (which may be NaN), or raised an exception. -/
inductive StepOutcome where
  | ok (lossIsNaN : Bool)
  | raise (e : Exc)
  deriving DecidableEq, Repr

/-- Trainer state observable across the batch loop: `global_step`, how many
batches were skipped with a warning, and how many times the device cache was
cleared. -/
structure TState where
  global_step : Nat
  warnings : Nat
  cacheCleared : Nat
  deriving DecidableEq, Repr

/-- One iteration of the `_train_epoch` batch loop (abs_trainer.py lines
110-132): a NaN loss warns and skips (`continue`) before the optimizer step;
a `RuntimeError` whose message contains `'out of memory'` warns, clears the
device cache and skips; any other exception propagates unmodified (the
`except` clause only catches `RuntimeError`, and re-raises non-OOM ones);
otherwise the optimizer step is applied and `global_step` increments by
one. -/
def train_batch (s : TState) (r : StepOutcome) : Except Exc TState :=
  match r with
  | .ok lossNaN =>
      if lossNaN then .ok { s with warnings := s.warnings + 1 }
      else .ok { s with global_step := s.global_step + 1 }
  | .raise e =>
      if isOOM e then
        .ok { s with warnings := s.warnings + 1,
                     cacheCleared := s.cacheCleared + 1 }
      else .error e

/-- The whole batch loop: iterate `train_batch`, aborting on the first
propagated exception. -/
def train_loop (s : TState) : List StepOutcome → Except Exc TState
  | [] => .ok s
  | r :: rest =>
      match train_batch s r with
      | .ok s' => train_loop s' rest
      | .error e => .error e

/-- An outcome is fatal when it aborts the run: any raised exception other
than an out-of-memory `RuntimeError`. -/
def fatalOutcome : StepOutcome → Bool
  | .ok _ => false
  | .raise e => !isOOM e

/-- Number of outcomes that successfully apply a batch (non-NaN loss, no
exception). -/
def countApplied (rs : List StepOutcome) : Nat :=
  rs.countP (fun r => match r with | .ok false => true | _ => false)

/-- Number of outcomes skipped with a warning: NaN losses and out-of-memory
errors. -/
def countSkipped (rs : List StepOutcome) : Nat :=
  rs.countP (fun r =>
    match r with | .ok true => true | .raise e => isOOM e | .ok false => false)

/-- Number of outcomes that clear the device cache (out-of-memory errors). -/
def countOOM (rs : List StepOutcome) : Nat :=
  rs.countP (fun r => match r with | .raise e => isOOM e | .ok _ => false)

/-- Model mode: `model.train()` or `model.eval()`. -/
inductive Mode where
  | train
  | eval
  deriving DecidableEq, Repr

/-- First exception raised across the validation batch loop, if any: each
batch's `valid_step` either returns a metric or raises. -/
def firstErr : List (Except Unit F) → Option Unit
  | [] => none
  | .error e :: _ => some e
  | .ok _ :: rest => firstErr rest

/-- The mode discipline of `Trainer._valid_epoch` (abs_trainer.py lines
140-171): `self.model.eval()` at entry (line 144), then the batch loop with
no `try`/`finally`, then `self.model.train()` (line 171) — which is reached
only when no batch raises. Returns the model's mode when control leaves the
function and whether an exception propagated out. -/
def valid_epoch_mode (batches : List (Except Unit F)) : Mode × Bool :=
  match firstErr batches with
  | some _ => (Mode.eval, true)
  | none => (Mode.train, false)

/-- The epoch loop of `Trainer.train` (abs_trainer.py lines 250-257)
restricted to its patience bookkeeping: given one improvement outcome per
potential epoch (at most `max_epoch` of them), run `_valid_epoch`'s patience
update (reset to the configured patience on improvement, else decrement,
lines 176 and 183) and break as soon as the counter is `<= 0` after a
validation phase (line 256-257). Returns the patience value after each
epoch actually run. -/
def train_loop_epochs (cfgPatience : Int) (patience : Int) :
    List Bool → List Int
  | [] => []
  | o :: rest =>
      let p := if o then cfgPatience else patience - 1
      if p ≤ 0 then [p]
      else p :: train_loop_epochs cfgPatience p rest

/-- A Python value stored in an instance `__dict__`. -/
inductive PyVal where
  | str (s : String)
  | int (i : Int)
  | float (x : F)
  | bool (b : Bool)
  | pyNone
  deriving DecidableEq, Repr

/-- Model of `TrainConfig.__init__` (abs_trainer.py lines 22-35) as the instance
`__dict__` it produces: the eight core fields are assigned first, then
`self.__dict__.update(kwargs)` merges the open extension map, overriding any
key it shares with a core field. -/
def TrainConfig_init (save_dir lr max_epoch metric_min_better warmup
    patience grad_clip save_topk : PyVal)
    (kwargs : List (String × PyVal)) : String → Option PyVal :=
  let base : String → Option PyVal := fun k =>
    if k = "save_dir" then some save_dir
    else if k = "lr" then some lr
    else if k = "max_epoch" then some max_epoch
    else if k = "metric_min_better" then some metric_min_better
    else if k = "warmup" then some warmup
    else if k = "patience" then some patience
    else if k = "grad_clip" then some grad_clip
    else if k = "save_topk" then some save_topk
    else none
  fun k =>
    match kwargs.lookup k with
    | some v => some v
    | none => base k

/-- The eight core constructor parameters of `TrainConfig`. -/
def coreFields : List String :=
  ["save_dir", "lr", "max_epoch", "metric_min_better", "warmup",
   "patience", "grad_clip", "save_topk"]

/-- Best-first ordering invariant of the top-k checkpoint map: no record is
strictly better (per the configured comparator) than an adjacent record
preceding it. For a min-better metric this is ascending order, ties
permitted. -/
def bestFirst (minBetter : Bool) (l : List (F × String)) : Prop :=
  List.Chain' (fun a b => better minBetter b.1 a.1 = false) l

/-! ## Helper lemmas -/

theorem flt_nan_left (x : F) : flt F.nan x = false := by
  cases x <;> rfl

theorem flt_nan_right (x : F) : flt x F.nan = false := by
  cases x <;> rfl

theorem flt_asymm (a b : F) : flt a b = true → flt b a = false := by
  cases a <;> cases b <;> simp [flt]
  exact fun h => le_of_lt h

theorem better_asymm (mb : Bool) (a b : F) :
    better mb a b = true → better mb b a = false := by
  cases mb <;> simp [better] <;> exact flt_asymm _ _

theorem replace_nan_gradients_getD (params : List (Option (List F)))
    (i : Nat) :
    (replace_nan_gradients params).getD i none =
      (params.getD i none).map (fun t => t.map nan_to_num) := by
  induction params generalizing i with
  | nil => cases i <;> rfl
  | cons p rest ih =>
      cases i with
      | zero => rfl
      | succ j => exact ih j

/-! ## Theorems -/

/-- C1, counterexample: the claim says every non-finite gradient entry is
replaced by zero, but `torch.nan_to_num` with default arguments replaces
`+inf` by the greatest finite representable value, which is not zero: on a
single-parameter model whose gradient is `[+inf]`, sanitization yields
`[FLT_MAX]`, not `[0]`. -/
theorem C1_counterexample :
    replace_nan_gradients [some [F.pinf]] = [some [F.fin FLT_MAX]] ∧
    F.fin FLT_MAX ≠ F.fin 0 := by
  refine ⟨rfl, ?_⟩
  simp [FLT_MAX]

/-- C2, counterexample: on the first validation epoch (`last_valid_metric`
still `None`), a NaN aggregate — as produced by `np.nanmean` over an
all-NaN (hence all-skipped, empty) metric array — IS treated as an
improvement: `_metric_better` returns `True` when the old metric is `None`,
so patience is reset, a checkpoint is persisted, and the NaN record is
inserted into the top-k map, contradicting the claim. -/
theorem C2_counterexample :
    nanmean (collect_metrics [F.nan, F.nan]) = F.nan ∧
    valid_judge true (-1) 3 ⟨3, none, []⟩ F.nan "p" =
      ⟨⟨3, some F.nan, [(F.nan, "p")]⟩, some "p", []⟩ :=
  ⟨rfl, rfl⟩

/-- C3, counterexample: with `warmup = 2` the claim predicts the warmup
scheduler is stepped once after each of the first 2 applied batches (2
steps), but because the guard `global_step < warmup` is checked after the
increment, only the first batch steps it (post-increment `global_step = 1 <
2`); the second batch (post-increment `2`) already falls through to the
main scheduler. -/
theorem C3_counterexample :
    (applyBatches 2 (some "batch") 2 ⟨0, 0, 0⟩).warmupSteps = 1 ∧
    (1 : Nat) ≠ 2 :=
  ⟨rfl, by decide⟩

/-- C4, counterexample: the claim bounds the retained length by `save_topk`
whenever `save_topk ≥ 0`, but the eviction guard is `if topk > 0`, so
`save_topk = 0` disables eviction entirely: inserting one record into an
empty map with `save_topk = 0` retains 1 > 0 records. -/
theorem C4_counterexample :
    (maintain_topk true 0 (F.fin 1) "p" []).1.length = 1 ∧
    ¬ ((1 : Nat) ≤ 0) :=
  ⟨rfl, by decide⟩

/-- C5: `_valid_epoch` switches the model to evaluation mode at entry but
reaches `self.model.train()` only after the batch loop completes — there is
no `try`/`finally` — so when a validation step raises, the exception
propagates with the model still in evaluation mode, contradicting the
"every exit path" requirement. -/
theorem C5_eval_mode_leak :
    valid_epoch_mode [Except.error ()] = (Mode.eval, true) ∧
    Mode.eval ≠ Mode.train :=
  ⟨rfl, by decide⟩

/-- C6: the two concrete top-k scenarios of the claim, plus the tie rule.
Min-better, `save_topk = 2`: inserting metrics 5, 3, 8, 1 retains exactly
`[1, 3]` in ascending order and deletes the blobs of 8 and 5 (8 first).
Max-better, `save_topk = -1`: the same insertions retain `[8, 5, 3, 1]`
with nothing deleted. A tie is inserted after the existing equal entry. -/
theorem C6_topk_scenarios :
    runInserts true 2
        [(F.fin 5, "p5"), (F.fin 3, "p3"), (F.fin 8, "p8"), (F.fin 1, "p1")]
        [] =
      ([(F.fin 1, "p1"), (F.fin 3, "p3")], ["p8", "p5"]) ∧
    runInserts false (-1)
        [(F.fin 5, "p5"), (F.fin 3, "p3"), (F.fin 8, "p8"), (F.fin 1, "p1")]
        [] =
      ([(F.fin 8, "p8"), (F.fin 5, "p5"), (F.fin 3, "p3"), (F.fin 1, "p1")],
       []) ∧
    maintain_topk false (-1) (F.fin 5) "b" [(F.fin 5, "a")] =
      ([(F.fin 5, "a"), (F.fin 5, "b")], []) :=
  ⟨rfl, rfl, rfl⟩

/-- C1, amended: after `replace_nan_gradients`, every gradient entry is
finite and finite entries are unchanged (the operation is total, hence never
raises), but the non-finite entries are replaced as `torch.nan_to_num`'s
defaults dictate: NaN by zero, `+inf` by the greatest finite representable
value, `-inf` by the least — not all by zero. -/
theorem C1_sanitize_amended (params : List (Option (List F))) :
    (replace_nan_gradients params).length = params.length ∧
    ∀ i g, params.getD i none = some g →
      (replace_nan_gradients params).getD i none = some (g.map nan_to_num) ∧
      ∀ x ∈ g, (nan_to_num x).isFinite = true ∧
        (x.isFinite = true → nan_to_num x = x) ∧
        (x = F.nan → nan_to_num x = F.fin 0) ∧
        (x = F.pinf → nan_to_num x = F.fin FLT_MAX) ∧
        (x = F.ninf → nan_to_num x = F.fin (-FLT_MAX)) := by
  refine ⟨by simp [replace_nan_gradients], ?_⟩
  intro i g hg
  refine ⟨by rw [replace_nan_gradients_getD, hg]; rfl, ?_⟩
  intro x _
  cases x <;> simp [nan_to_num, F.isFinite]

/-- C1, witness: the amended theorem applied to a one-parameter model whose
gradient holds a NaN, a `+inf` and a finite entry. -/
theorem C1_sanitize_witness :
    (replace_nan_gradients [some [F.nan, F.pinf, F.fin 3]]).getD 0 none =
      some [F.fin 0, F.fin FLT_MAX, F.fin 3] :=
  ((C1_sanitize_amended [some [F.nan, F.pinf, F.fin 3]]).2 0
    [F.nan, F.pinf, F.fin 3] rfl).1

/-- C2, amended: a NaN aggregate is not an improvement on any validation
epoch for which `last_valid_metric` is already set — patience is
decremented, no checkpoint is persisted, the top-k map is untouched — but on
the first validation epoch (`last_valid_metric` still `None`) a NaN
aggregate IS treated as an improvement: patience is reset and a checkpoint
is persisted and inserted into the top-k map. -/
theorem C2_nan_metric_amended (minBetter : Bool) (topk cfgPatience : Int)
    (st : VState) (path : String) :
    (∀ old, st.lastValidMetric = some old →
      valid_judge minBetter topk cfgPatience st F.nan path =
        ⟨⟨st.patience - 1, some F.nan, st.topkMap⟩, none, []⟩) ∧
    (st.lastValidMetric = none →
      valid_judge minBetter topk cfgPatience st F.nan path =
        ⟨⟨cfgPatience, some F.nan,
          (maintain_topk minBetter topk F.nan path st.topkMap).1⟩,
         some path,
         (maintain_topk minBetter topk F.nan path st.topkMap).2⟩) := by
  constructor
  · intro old hold
    have hmb : metric_better minBetter st.lastValidMetric F.nan = false := by
      rw [hold]
      cases minBetter <;>
        simp [metric_better, flt_nan_left, flt_nan_right]
    simp [valid_judge, hmb]
  · intro hnone
    have hmb : metric_better minBetter st.lastValidMetric F.nan = true := by
      rw [hnone]; rfl
    simp [valid_judge, hmb]

/-- C2, witness: the amended theorem applied to a second validation epoch
whose previous aggregate was 1 and whose new aggregate is NaN: patience
drops from 5 to 4, nothing is saved, the top-k map stays empty. -/
theorem C2_nan_metric_witness :
    valid_judge true (-1) 3 ⟨5, some (F.fin 1), []⟩ F.nan "q" =
      ⟨⟨4, some F.nan, []⟩, none, []⟩ :=
  (C2_nan_metric_amended true (-1) 3 ⟨5, some (F.fin 1), []⟩ "q").1
    (F.fin 1) rfl

/-- C9: at the end of a validation judgment, `last_valid_metric` is the new
aggregate regardless of the improvement decision, so the next epoch's
improvement test compares against the immediately preceding aggregate and
never against the best value seen so far. -/
theorem C9_last_metric_overwrite (minBetter : Bool) (topk cfgPatience : Int)
    (st : VState) (m1 m2 : F) (p1 : String) :
    (valid_judge minBetter topk cfgPatience st m1 p1).state.lastValidMetric =
      some m1 ∧
    metric_better minBetter
        (valid_judge minBetter topk cfgPatience st m1 p1).state.lastValidMetric
        m2 =
      (if minBetter then flt m2 m1 else flt m1 m2) := by
  have h : (valid_judge minBetter topk cfgPatience st m1 p1).state.lastValidMetric
      = some m1 := by
    unfold valid_judge
    split <;> rfl
  exact ⟨h, by rw [h]; rfl⟩

/-- C10: any key of the open extension map that coincides with a core field
name silently overrides the explicitly passed core value, because
`self.__dict__.update(kwargs)` runs after the core assignments. -/
theorem C10_kwargs_override (sd lr me mmb wu pa gc stk : PyVal)
    (kwargs : List (String × PyVal)) (k : String) (v : PyVal)
    (_hk : k ∈ coreFields) (hv : kwargs.lookup k = some v) :
    TrainConfig_init sd lr me mmb wu pa gc stk kwargs k = some v := by
  simp [TrainConfig_init, hv]

/-- C10, witness: passing `lr` both as the core argument (1) and in the
extension map (5) yields 5 in the constructed `__dict__`. -/
theorem C10_kwargs_witness :
    TrainConfig_init (.str "d") (.int 1) (.int 10) (.bool true) (.int 1000)
      (.int 3) .pyNone (.int (-1)) [("lr", .int 5)] "lr" = some (.int 5) :=
  C10_kwargs_override (.str "d") (.int 1) (.int 10) (.bool true) (.int 1000)
    (.int 3) .pyNone (.int (-1)) [("lr", .int 5)] "lr" (.int 5)
    (by decide) rfl

/-- Full behaviour of the patience bookkeeping loop, for an arbitrary
starting counter: the trace of counter values after each epoch run follows
the reset/decrement rule (entry `i` is the configured patience on an
improving epoch, else the previous value minus one), the loop never
continues past a non-positive counter, and when it stops before exhausting
the epoch budget the final counter is non-positive. -/
theorem patience_trace_spec (cfg : Int) :
    ∀ (outcomes : List Bool) (p : Int),
      (train_loop_epochs cfg p outcomes).length ≤ outcomes.length ∧
      (∀ i, i + 1 < (train_loop_epochs cfg p outcomes).length →
        0 < (train_loop_epochs cfg p outcomes).getD i 0) ∧
      (∀ i, i < (train_loop_epochs cfg p outcomes).length →
        (train_loop_epochs cfg p outcomes).getD i 0 =
          (if outcomes.getD i false then cfg
           else (p :: train_loop_epochs cfg p outcomes).getD i 0 - 1)) ∧
      ((train_loop_epochs cfg p outcomes).length < outcomes.length →
        (train_loop_epochs cfg p outcomes).getD
          ((train_loop_epochs cfg p outcomes).length - 1) 0 ≤ 0) := by
  intro outcomes
  induction outcomes with
  | nil =>
      intro p
      simp [train_loop_epochs]
  | cons o rest ih =>
      intro p
      by_cases hp : (if o then cfg else p - 1) ≤ 0
      · have hre : train_loop_epochs cfg p (o :: rest) =
            [if o then cfg else p - 1] := by
          simp [train_loop_epochs, hp]
        rw [hre]
        refine ⟨by simp, ?_, ?_, ?_⟩
        · intro i hi
          simp at hi
        · intro i hi
          simp at hi
          subst hi
          cases o <;> simp
        · intro _
          simpa using hp
      · have hre : train_loop_epochs cfg p (o :: rest) =
            (if o then cfg else p - 1) ::
              train_loop_epochs cfg (if o then cfg else p - 1) rest := by
          simp [train_loop_epochs, hp]
        obtain ⟨ih1, ih2, ih3, ih4⟩ := ih (if o then cfg else p - 1)
        rw [hre]
        refine ⟨by simpa using ih1, ?_, ?_, ?_⟩
        · intro i hi
          cases i with
          | zero => simpa using lt_of_not_le hp
          | succ j =>
              simp only [List.getD_cons_succ]
              exact ih2 j (by simpa using hi)
        · intro i hi
          cases i with
          | zero => cases o <;> simp
          | succ j =>
              simp only [List.getD_cons_succ]
              exact ih3 j (by simpa using hi)
        · intro hlen
          simp only [List.length_cons] at hlen
          have hlen' : (train_loop_epochs cfg (if o then cfg else p - 1)
              rest).length < rest.length := by omega
          have h0 : (train_loop_epochs cfg (if o then cfg else p - 1)
              rest).length ≠ 0 := by
            intro h0
            rw [h0] at hlen'
            cases rest with
            | nil => simp at hlen'
            | cons r rs =>
                have : train_loop_epochs cfg (if o then cfg else p - 1)
                    (r :: rs) ≠ [] := by
                  by_cases hq : (if r then cfg
                      else (if o then cfg else p - 1) - 1) ≤ 0 <;>
                    simp [train_loop_epochs, hq]
                simp [List.length_eq_zero] at h0
                exact this h0
          have := ih4 hlen'
          simp only [List.length_cons]
          have hidx : (train_loop_epochs cfg (if o then cfg else p - 1)
              rest).length + 1 - 1 =
              ((train_loop_epochs cfg (if o then cfg else p - 1)
                rest).length - 1) + 1 := by omega
          rw [hidx, List.getD_cons_succ]
          exact this

/-- C8: the patience counter starts at the configured patience, is reset to
it on every improving validation epoch and decremented otherwise; the epoch
loop never continues past a non-positive counter, runs at most `max_epoch`
epochs, and when it stops early the final counter is non-positive. In
particular, with patience 3 and outcomes [improve, no, no, no] the counter
trace is [3, 2, 1, 0] and the run halts exactly after the fourth epoch. -/
theorem C8_patience (cfg : Int) (outcomes : List Bool) :
    ((train_loop_epochs cfg cfg outcomes).length ≤ outcomes.length ∧
     (∀ i, i + 1 < (train_loop_epochs cfg cfg outcomes).length →
        0 < (train_loop_epochs cfg cfg outcomes).getD i 0) ∧
     (∀ i, i < (train_loop_epochs cfg cfg outcomes).length →
        (train_loop_epochs cfg cfg outcomes).getD i 0 =
          (if outcomes.getD i false then cfg
           else (cfg :: train_loop_epochs cfg cfg outcomes).getD i 0 - 1)) ∧
     ((train_loop_epochs cfg cfg outcomes).length < outcomes.length →
        (train_loop_epochs cfg cfg outcomes).getD
          ((train_loop_epochs cfg cfg outcomes).length - 1) 0 ≤ 0)) ∧
    train_loop_epochs 3 3 [true, false, false, false] = [3, 2, 1, 0] ∧
    (train_loop_epochs 3 3 [true, false, false, false]).length = 4 :=
  ⟨patience_trace_spec cfg outcomes cfg, rfl, rfl⟩

/-- C8, witness: after the second epoch of the concrete scenario the counter
is 2, obtained from the trace recurrence at index 1. -/
theorem C8_patience_witness :
    (train_loop_epochs 3 3 [true, false, false, false]).getD 1 0 = 2 :=
  (C8_patience 3 [true, false, false, false]).1.2.2.1 1 (by decide)

/-- When every outcome in the list is non-fatal, the batch loop completes,
incrementing `global_step` once per successfully applied batch, warning once
per skipped batch (NaN loss or out-of-memory), and clearing the device
cache once per out-of-memory skip. -/
theorem train_loop_ok (rs : List StepOutcome) :
    ∀ s : TState, (∀ r ∈ rs, fatalOutcome r = false) →
      train_loop s rs =
        .ok ⟨s.global_step + countApplied rs, s.warnings + countSkipped rs,
             s.cacheCleared + countOOM rs⟩ := by
  induction rs with
  | nil =>
      intro s _
      simp [train_loop, countApplied, countSkipped, countOOM]
  | cons r rest ih =>
      intro s hall
      have hr : fatalOutcome r = false := hall r (List.mem_cons_self r rest)
      have hrest : ∀ x ∈ rest, fatalOutcome x = false :=
        fun x hx => hall x (List.mem_cons_of_mem r hx)
      cases r with
      | ok lossNaN =>
          cases lossNaN with
          | true =>
              rw [show train_loop s (StepOutcome.ok true :: rest) =
                  train_loop { s with warnings := s.warnings + 1 } rest
                from rfl]
              rw [ih _ hrest]
              simp [countApplied, countSkipped, countOOM, List.countP_cons]
              omega
          | false =>
              rw [show train_loop s (StepOutcome.ok false :: rest) =
                  train_loop { s with global_step := s.global_step + 1 } rest
                from rfl]
              rw [ih _ hrest]
              simp [countApplied, countSkipped, countOOM, List.countP_cons]
              omega
      | raise e =>
          have hoom : isOOM e = true := by
            simpa [fatalOutcome] using hr
          have hb : train_loop s (StepOutcome.raise e :: rest) =
              train_loop { s with warnings := s.warnings + 1,
                                  cacheCleared := s.cacheCleared + 1 } rest := by
            simp [train_loop, train_batch, hoom]
          rw [hb, ih _ hrest]
          simp [countApplied, countSkipped, countOOM, List.countP_cons, hoom]
          omega

/-- When a fatal outcome (an exception other than an out-of-memory
`RuntimeError`) occurs after a prefix of non-fatal ones, the batch loop
aborts, propagating that exception unmodified. -/
theorem train_loop_fatal (e : Exc) (post : List StepOutcome) :
    ∀ (pre : List StepOutcome) (s : TState),
      (∀ r ∈ pre, fatalOutcome r = false) →
      fatalOutcome (StepOutcome.raise e) = true →
      train_loop s (pre ++ StepOutcome.raise e :: post) = .error e := by
  intro pre
  induction pre with
  | nil =>
      intro s _ hfat
      have hoom : isOOM e = false := by
        simpa [fatalOutcome] using hfat
      simp [train_loop, train_batch, hoom]
  | cons r rest ih =>
      intro s hall hfat
      have hr : fatalOutcome r = false := hall r (List.mem_cons_self r rest)
      have hrest : ∀ x ∈ rest, fatalOutcome x = false :=
        fun x hx => hall x (List.mem_cons_of_mem r hx)
      cases r with
      | ok lossNaN =>
          cases lossNaN with
          | true => exact ih { s with warnings := s.warnings + 1 } hrest hfat
          | false =>
              exact ih { s with global_step := s.global_step + 1 } hrest hfat
      | raise e' =>
          have hoom : isOOM e' = true := by
            simpa [fatalOutcome] using hr
          have hb : train_loop s ((StepOutcome.raise e' :: rest) ++
              StepOutcome.raise e :: post) =
              train_loop { s with warnings := s.warnings + 1,
                                  cacheCleared := s.cacheCleared + 1 }
                (rest ++ StepOutcome.raise e :: post) := by
            simp [train_loop, train_batch, hoom]
          rw [hb]
          exact ih _ hrest hfat

/-- C7: in the batch loop, a batch is skipped with a warning and without an
optimizer step or `global_step` increment exactly when the loss is NaN or
the step raises an out-of-memory `RuntimeError` (which also clears the
device cache); a successfully applied batch increments `global_step` by
exactly one; and any other exception aborts the loop, propagating
unmodified. -/
theorem C7_error_taxonomy (s : TState) (rs : List StepOutcome) :
    ((∀ r ∈ rs, fatalOutcome r = false) →
      train_loop s rs =
        .ok ⟨s.global_step + countApplied rs, s.warnings + countSkipped rs,
             s.cacheCleared + countOOM rs⟩) ∧
    (∀ (pre : List StepOutcome) (e : Exc) (post : List StepOutcome),
      rs = pre ++ StepOutcome.raise e :: post →
      (∀ r ∈ pre, fatalOutcome r = false) →
      fatalOutcome (StepOutcome.raise e) = true →
      train_loop s rs = .error e) := by
  constructor
  · exact train_loop_ok rs s
  · intro pre e post hsplit hpre hfat
    rw [hsplit]
    exact train_loop_fatal e post pre s hpre hfat

/-- C7, witness: a run with one applied batch, one NaN-loss skip and one
out-of-memory skip ends with `global_step = 1`, two warnings and one cache
clear; a run hitting a non-`RuntimeError` failure aborts with that
exception. -/
theorem C7_error_taxonomy_witness :
    train_loop ⟨0, 0, 0⟩
        [.ok false, .ok true, .raise ⟨true, "CUDA out of memory. Tried"⟩] =
      .ok ⟨1, 2, 1⟩ ∧
    train_loop ⟨0, 0, 0⟩ [.ok false, .raise ⟨false, "boom"⟩] =
      .error ⟨false, "boom"⟩ := by
  constructor
  · exact (C7_error_taxonomy ⟨0, 0, 0⟩
      [.ok false, .ok true, .raise ⟨true, "CUDA out of memory. Tried"⟩]).1
      (by decide)
  · exact (C7_error_taxonomy ⟨0, 0, 0⟩
      [.ok false, .raise ⟨false, "boom"⟩]).2
      [.ok false] ⟨false, "boom"⟩ [] rfl (by decide) (by decide)

/-- Closed form of the batch loop's scheduler stepping: starting from any
state, `n` applied batches raise `global_step` by `n`; the warmup scheduler
gains one step per batch whose post-increment `global_step` is still below
`warmup` (counted by the `min` difference); with the `'batch'` frequency the
main scheduler gains the remaining steps, and with any other frequency it
gains none. -/
theorem applyBatches_eq (W : Nat) (freq : Option String) :
    ∀ (n : Nat) (s : SchedState),
      applyBatches W freq n s =
        ⟨s.global_step + n,
         s.warmupSteps +
           (min (s.global_step + n) (W - 1) - min s.global_step (W - 1)),
         s.mainSteps +
           (if freq = some "batch" then
              n - (min (s.global_step + n) (W - 1) - min s.global_step (W - 1))
            else 0)⟩ := by
  intro n
  induction n with
  | zero =>
      intro s
      simp [applyBatches]
  | succ n ih =>
      intro s
      rw [show applyBatches W freq (n + 1) s =
          applyBatches W freq n (apply_batch W freq s) from rfl]
      by_cases h1 : s.global_step + 1 < W
      · have hb : apply_batch W freq s =
            ⟨s.global_step + 1, s.warmupSteps + 1, s.mainSteps⟩ := by
          simp [apply_batch, h1]
        rw [hb, ih]
        dsimp only
        simp only [SchedState.mk.injEq]
        by_cases hf : freq = some "batch"
        · simp only [if_pos hf]
          refine ⟨by omega, by omega, by omega⟩
        · simp only [if_neg hf]
          exact ⟨by omega, by omega, trivial⟩
      · by_cases hf : freq = some "batch"
        · have hb : apply_batch W freq s =
              ⟨s.global_step + 1, s.warmupSteps, s.mainSteps + 1⟩ := by
            simp [apply_batch, h1, hf]
          rw [hb, ih]
          dsimp only
          simp only [SchedState.mk.injEq, if_pos hf]
          refine ⟨by omega, by omega, by omega⟩
        · have hb : apply_batch W freq s =
              ⟨s.global_step + 1, s.warmupSteps, s.mainSteps⟩ := by
            simp [apply_batch, h1, hf]
          rw [hb, ih]
          dsimp only
          simp only [SchedState.mk.injEq, if_neg hf]
          exact ⟨by omega, by omega, trivial⟩

/-- C3, amended: starting from a fresh run, after `n` applied batches
`global_step = n`; the warmup scheduler has been stepped `min n (W - 1)`
times — once after each of the first `W - 1` batches (those whose
post-increment `global_step` is still below `W`), not `W` of them; the main
scheduler is never stepped while `global_step < W`; under the `'batch'`
frequency it accumulates exactly the `n - min n (W - 1)` steps of the
batches that brought `global_step` to `W` and beyond, under any other
frequency the batch loop never steps it; and the end-of-epoch and
per-validation steps fire only once `global_step ≥ W`, under the `'epoch'`
and `'val_epoch'` frequencies respectively. -/
theorem C3_scheduler_phases (W n : Nat) (freq : Option String)
    (s : SchedState) :
    (applyBatches W freq n ⟨0, 0, 0⟩).global_step = n ∧
    (applyBatches W freq n ⟨0, 0, 0⟩).warmupSteps = min n (W - 1) ∧
    (freq = some "batch" →
      (applyBatches W freq n ⟨0, 0, 0⟩).mainSteps = n - min n (W - 1)) ∧
    (freq ≠ some "batch" →
      (applyBatches W freq n ⟨0, 0, 0⟩).mainSteps = 0) ∧
    (n < W → (applyBatches W freq n ⟨0, 0, 0⟩).mainSteps = 0) ∧
    (W ≤ s.global_step →
      (epoch_end_step W (some "epoch") s).mainSteps = s.mainSteps + 1) ∧
    (s.global_step < W → epoch_end_step W freq s = s) ∧
    (W ≤ s.global_step →
      (val_end_step W (some "val_epoch") s).mainSteps = s.mainSteps + 1) ∧
    (s.global_step < W → val_end_step W freq s = s) := by
  have h := applyBatches_eq W freq n ⟨0, 0, 0⟩
  rw [h]
  refine ⟨by simp, by simp, ?_, ?_, ?_, ?_, ?_, ?_, ?_⟩
  · intro hf
    simp [hf]
  · intro hf
    simp [hf]
  · intro hn
    by_cases hf : freq = some "batch"
    · simp only [if_pos hf]
      omega
    · simp only [if_neg hf]
  · intro hge
    simp [epoch_end_step, hge]
  · intro hlt
    have : ¬ (W ≤ s.global_step ∧ freq = some "epoch") := by
      intro hc
      obtain ⟨hc1, _⟩ := hc
      omega
    simp [epoch_end_step, this]
  · intro hge
    simp [val_end_step, hge]
  · intro hlt
    have : ¬ (W ≤ s.global_step ∧ freq = some "val_epoch") := by
      intro hc
      obtain ⟨hc1, _⟩ := hc
      omega
    simp [val_end_step, this]

/-- C3, witness: with `warmup = 2` and the `'batch'` frequency, three
applied batches step the warmup scheduler once and the main scheduler
twice; an epoch boundary at `global_step = 2 ≥ warmup` steps an
`'epoch'`-frequency main scheduler once. -/
theorem C3_scheduler_witness :
    (applyBatches 2 (some "batch") 3 ⟨0, 0, 0⟩).mainSteps = 2 ∧
    (epoch_end_step 2 (some "epoch") ⟨2, 1, 0⟩).mainSteps = 1 :=
  ⟨(C3_scheduler_phases 2 3 (some "batch") ⟨2, 1, 0⟩).2.2.1 rfl,
   (C3_scheduler_phases 2 3 (some "epoch") ⟨2, 1, 0⟩).2.2.2.2.2.1
     (by decide)⟩

/-- Python's `list.insert` grows the list by exactly one element. -/
theorem length_listInsert (a : F × String) :
    ∀ (l : List (F × String)) (pos : Nat),
      (listInsert pos a l).length = l.length + 1 := by
  intro l
  induction l with
  | nil => intro pos; simp [listInsert]
  | cons x xs ih =>
      intro pos
      cases pos with
      | zero => simp [listInsert]
      | succ p => simp [listInsert, ih p]

/-- Closed form of the eviction loop: with enough fuel it retains the first
`topk` records and deletes the blobs of the rest, worst (last) first. -/
theorem evictLoopFuel_eq (topk : Nat) :
    ∀ (fuel : Nat) (l : List (F × String)), l.length ≤ fuel →
      evictLoopFuel topk fuel l =
        (l.take topk, ((l.drop topk).map Prod.snd).reverse) := by
  intro fuel
  induction fuel with
  | zero =>
      intro l hl
      have hnil : l = [] := List.eq_nil_of_length_eq_zero (Nat.le_zero.mp hl)
      subst hnil
      simp [evictLoopFuel]
  | succ fuel ih =>
      intro l hl
      by_cases h : topk < l.length
      · rcases List.eq_nil_or_concat l with rfl | ⟨l', x, rfl⟩
        · simp at h
        · obtain ⟨xm, xp⟩ := x
          simp only [List.concat_eq_append] at hl h ⊢
          have hlen : l'.length ≤ fuel := by
            simp only [List.length_append, List.length_cons,
              List.length_nil] at hl
            omega
          have htop : topk ≤ l'.length := by
            simp only [List.length_append, List.length_cons,
              List.length_nil] at h
            omega
          have hstep : evictLoopFuel topk (fuel + 1) (l' ++ [(xm, xp)]) =
              ((evictLoopFuel topk fuel l').1,
               xp :: (evictLoopFuel topk fuel l').2) := by
            rw [show evictLoopFuel topk (fuel + 1) (l' ++ [(xm, xp)]) =
                if topk < (l' ++ [(xm, xp)]).length then
                  match (l' ++ [(xm, xp)]).getLast? with
                  | some (_, p) =>
                      ((evictLoopFuel topk fuel
                          (l' ++ [(xm, xp)]).dropLast).1,
                       p :: (evictLoopFuel topk fuel
                          (l' ++ [(xm, xp)]).dropLast).2)
                  | none => (l' ++ [(xm, xp)], [])
                else (l' ++ [(xm, xp)], []) from rfl]
            rw [if_pos h]
            simp [List.getLast?_concat, List.dropLast_concat]
          rw [hstep, ih l' hlen]
          rw [List.take_append_of_le_length htop,
            List.drop_append_of_le_length htop]
          simp
      · push_neg at h
        rw [show evictLoopFuel topk (fuel + 1) l =
            if topk < l.length then
              match l.getLast? with
              | some (_, p) =>
                  ((evictLoopFuel topk fuel l.dropLast).1,
                   p :: (evictLoopFuel topk fuel l.dropLast).2)
              | none => (l, [])
            else (l, []) from rfl]
        rw [if_neg (not_lt.mpr h)]
        rw [List.take_of_length_le h, List.drop_of_length_le h]
        simp

/-- Inserting at the position scanned by `_maintain_topk_checkpoint`
preserves the best-first ordering of the map. -/
theorem bestFirst_listInsert (mb : Bool) (m : F) (p : String) :
    ∀ l : List (F × String), bestFirst mb l →
      bestFirst mb (listInsert (insertPos mb m l) (m, p) l) := by
  intro l
  induction l with
  | nil =>
      intro _
      exact List.chain'_singleton _
  | cons x xs ih =>
      intro hch
      obtain ⟨x1, x2⟩ := x
      by_cases hb : better mb m x1 = true
      · have hpos : insertPos mb m ((x1, x2) :: xs) = 0 := by
          simp [insertPos, hb]
        rw [hpos]
        rw [show listInsert 0 (m, p) ((x1, x2) :: xs) =
            (m, p) :: (x1, x2) :: xs from rfl]
        exact List.chain'_cons.mpr ⟨better_asymm mb m x1 hb, hch⟩
      · have hb' : better mb m x1 = false := by
          simpa using hb
        have hpos : insertPos mb m ((x1, x2) :: xs) =
            insertPos mb m xs + 1 := by
          simp [insertPos, hb']
        rw [hpos]
        rw [show listInsert (insertPos mb m xs + 1) (m, p) ((x1, x2) :: xs) =
            (x1, x2) :: listInsert (insertPos mb m xs) (m, p) xs from rfl]
        have htail : bestFirst mb xs := List.Chain'.tail hch
        have hins := ih htail
        rw [bestFirst, List.chain'_cons']
        refine ⟨?_, hins⟩
        intro y hy
        cases xs with
        | nil =>
            simp [listInsert] at hy
            subst hy
            exact hb'
        | cons z zs =>
            obtain ⟨z1, z2⟩ := z
            by_cases hz : better mb m z1 = true
            · have : insertPos mb m ((z1, z2) :: zs) = 0 := by
                simp [insertPos, hz]
              rw [this] at hy
              simp [listInsert] at hy
              subst hy
              exact hb'
            · have hz' : better mb m z1 = false := by
                simpa using hz
              have : insertPos mb m ((z1, z2) :: zs) =
                  insertPos mb m zs + 1 := by
                simp [insertPos, hz']
              rw [this] at hy
              simp [listInsert] at hy
              subst hy
              exact (List.chain'_cons.mp hch).1

/-- C4, amended: after an insertion the map is best-first sorted (given it
was); its length is bounded by `save_topk` whenever `save_topk > 0` — not
"≥ 0": the eviction guard is `topk > 0`, so `save_topk = 0`, like `-1`,
disables eviction; when eviction runs, the retained map is exactly the
first `save_topk` records of the post-insertion map and the deleted blob
paths are exactly those of the evicted tail (worst first), so every
eviction deletes the evicted record's blob; retained plus deleted always
account for every record; and the manifest holds one `metric: path` line
per retained record, in order. -/
theorem C4_topk_invariants (mb : Bool) (topk : Int) (m : F) (path : String)
    (map : List (F × String)) (hs : bestFirst mb map) :
    bestFirst mb (maintain_topk mb topk m path map).1 ∧
    (0 < topk → (maintain_topk mb topk m path map).1.length ≤ topk.toNat) ∧
    (topk ≤ 0 → (maintain_topk mb topk m path map).1 =
        listInsert (insertPos mb m map) (m, path) map ∧
      (maintain_topk mb topk m path map).2 = []) ∧
    (0 < topk →
      (maintain_topk mb topk m path map).1 =
        (listInsert (insertPos mb m map) (m, path) map).take topk.toNat ∧
      (maintain_topk mb topk m path map).2 =
        (((listInsert (insertPos mb m map) (m, path) map).drop
            topk.toNat).map Prod.snd).reverse) ∧
    (maintain_topk mb topk m path map).1.length +
        (maintain_topk mb topk m path map).2.length = map.length + 1 ∧
    writeManifest (maintain_topk mb topk m path map).1 =
      (maintain_topk mb topk m path map).1.map manifestLine := by
  have hlen : (listInsert (insertPos mb m map) (m, path) map).length =
      map.length + 1 := length_listInsert (m, path) map (insertPos mb m map)
  have hchain : bestFirst mb (listInsert (insertPos mb m map) (m, path) map) :=
    bestFirst_listInsert mb m path map hs
  by_cases ht : 0 < topk
  · have hev : maintain_topk mb topk m path map =
        ((listInsert (insertPos mb m map) (m, path) map).take topk.toNat,
         (((listInsert (insertPos mb m map) (m, path) map).drop
             topk.toNat).map Prod.snd).reverse) := by
      rw [show maintain_topk mb topk m path map =
          if 0 < topk then
            evictLoop topk.toNat (listInsert (insertPos mb m map) (m, path) map)
          else (listInsert (insertPos mb m map) (m, path) map, []) from rfl]
      rw [if_pos ht]
      exact evictLoopFuel_eq topk.toNat
        (listInsert (insertPos mb m map) (m, path) map).length
        (listInsert (insertPos mb m map) (m, path) map) (le_refl _)
    rw [hev]
    refine ⟨List.Chain'.take hchain _, ?_, ?_, fun _ => ⟨rfl, rfl⟩, ?_, rfl⟩
    · intro _
      simp [List.length_take]
    · intro hc
      omega
    · simp only [List.length_take, List.length_reverse, List.length_map,
        List.length_drop, hlen]
      omega
  · have h0 : maintain_topk mb topk m path map =
        (listInsert (insertPos mb m map) (m, path) map, []) := by
      rw [show maintain_topk mb topk m path map =
          if 0 < topk then
            evictLoop topk.toNat (listInsert (insertPos mb m map) (m, path) map)
          else (listInsert (insertPos mb m map) (m, path) map, []) from rfl]
      rw [if_neg ht]
    rw [h0]
    refine ⟨hchain, fun hc => absurd hc ht, fun _ => ⟨rfl, rfl⟩,
      fun hc => absurd hc ht, ?_, rfl⟩
    simp [hlen]

/-- C4, witness: inserting metric 0 into the sorted singleton map
`[(1, "a")]` with `save_topk = 1` retains only the new best record and
deletes the blob of the evicted one. -/
theorem C4_topk_witness :
    (maintain_topk true 1 (F.fin 0) "b" [(F.fin 1, "a")]).1 =
      [(F.fin 0, "b")] ∧
    (maintain_topk true 1 (F.fin 0) "b" [(F.fin 1, "a")]).2 = ["a"] := by
  have h := C4_topk_invariants true 1 (F.fin 0) "b" [(F.fin 1, "a")]
    (List.chain'_singleton _)
  exact ⟨(h.2.2.2.1 (by decide)).1, (h.2.2.2.1 (by decide)).2⟩

end UniSim
